import Mathlib

/-!
Verification of the memecoin copy-trading bot against its specification.

The Rust sources are shallowly embedded:
* `HashMap`/`HashSet` state becomes association lists / membership lists with
  explicit state passing;
* `u64`/`u128` arithmetic is modelled over `ℕ` (the quantities involved are
  token and lamport amounts far below the wrap points, and no claim concerns
  wrapping); saturating subtraction is `ℕ` subtraction;
* `f64` arithmetic is modelled by exact rationals: Rust `f64::round` (ties
  away from zero) becomes `rustRound`, and the saturating `as u64` cast of a
  rounded float becomes `asU64`;
* fallible code returns `Option` / `Except`;
* `tokio::Mutex`-guarded global state becomes an explicit state value threaded
  through the operations, with "now" (the wall clock) an explicit argument.
-/

/-- Rust `f64::round`: round half away from zero (exact-rational model). -/
def rustRound (q : ℚ) : ℤ :=
  if 0 ≤ q then ⌊q + 1/2⌋ else -⌊-q + 1/2⌋

/-- Rust saturating `as u64` cast of an integer-valued float: negatives clamp
to `0`, values above `u64::MAX` clamp to `u64::MAX`. -/
def asU64 (z : ℤ) : ℕ :=
  min z.toNat (2 ^ 64 - 1)

/-! ### Association-list maps (model of `HashMap`) -/

/-- `HashMap::get`: first binding of the key, if any. -/
def lookupA {α β : Type} [DecidableEq α] : List (α × β) → α → Option β
  | [], _ => none
  | (a, b) :: t, k => if a = k then some b else lookupA t k

/-- `HashMap::remove`: drop every binding of the key. -/
def removeA {α β : Type} [DecidableEq α] : List (α × β) → α → List (α × β)
  | [], _ => []
  | (a, b) :: t, k => if a = k then removeA t k else (a, b) :: removeA t k

/-- `HashMap::insert`: bind the key to the value, replacing any old binding. -/
def insertA {α β : Type} [DecidableEq α] (l : List (α × β)) (k : α) (v : β) :
    List (α × β) :=
  (k, v) :: removeA l k

/-- Membership list as a model of `HashSet`: `insert`. -/
def insertS {α : Type} [DecidableEq α] (l : List α) (k : α) : List α :=
  if k ∈ l then l else k :: l

/-- Membership list as a model of `HashSet`: `remove`. -/
def removeS {α : Type} [DecidableEq α] : List α → α → List α
  | [], _ => []
  | a :: t, k => if a = k then removeS t k else a :: removeS t k

theorem lookupA_removeA {α β : Type} [DecidableEq α]
    (l : List (α × β)) (k k' : α) :
    lookupA (removeA l k) k' = if k' = k then none else lookupA l k' := by
  induction l with
  | nil => simp [removeA, lookupA]
  | cons hd t ih =>
    obtain ⟨a, b⟩ := hd
    simp only [removeA]
    by_cases hak : a = k
    · rw [if_pos hak, ih]
      by_cases hk : k' = k
      · simp [hk]
      · have hak' : ¬a = k' := fun h => hk (by rw [← h]; exact hak)
        simp [lookupA, hk, hak']
    · rw [if_neg hak]
      simp only [lookupA, ih]
      by_cases hak' : a = k'
      · have hk : ¬k' = k := fun h => hak (hak'.trans h)
        simp [hak', hk]
      · simp [hak']

theorem lookupA_insertA {α β : Type} [DecidableEq α]
    (l : List (α × β)) (k k' : α) (v : β) :
    lookupA (insertA l k v) k' = if k' = k then some v else lookupA l k' := by
  by_cases hk : k' = k <;>
    simp [insertA, lookupA, hk, Ne.symm, lookupA_removeA]

theorem lookupA_isSome_iff_mem {α β : Type} [DecidableEq α]
    (l : List (α × β)) (k : α) :
    (lookupA l k).isSome ↔ ∃ v, (k, v) ∈ l := by
  induction l with
  | nil => simp [lookupA]
  | cons hd t ih =>
    obtain ⟨a, b⟩ := hd
    by_cases hak : a = k
    · subst hak
      simp [lookupA]
    · simp only [lookupA, if_neg hak, ih, List.mem_cons]
      constructor
      · rintro ⟨v, hv⟩
        exact ⟨v, Or.inr hv⟩
      · rintro ⟨v, hv | hv⟩
        · cases hv
          exact absurd rfl hak
        · exact ⟨v, hv⟩

theorem mem_insertS {α : Type} [DecidableEq α] (l : List α) (k k' : α) :
    k' ∈ insertS l k ↔ k' = k ∨ k' ∈ l := by
  unfold insertS
  by_cases hk : k ∈ l
  · simp only [if_pos hk]
    constructor
    · exact Or.inr
    · rintro (rfl | h)
      · exact hk
      · exact h
  · simp [if_neg hk]

theorem mem_removeS {α : Type} [DecidableEq α] (l : List α) (k k' : α) :
    k' ∈ removeS l k ↔ k' ∈ l ∧ k' ≠ k := by
  induction l with
  | nil => simp [removeS]
  | cons a t ih =>
    simp only [removeS]
    by_cases hak : a = k
    · rw [if_pos hak, ih]
      subst hak
      constructor
      · rintro ⟨h, hne⟩
        exact ⟨List.mem_cons_of_mem _ h, hne⟩
      · rintro ⟨h, hne⟩
        rcases List.mem_cons.mp h with h1 | h1
        · exact absurd h1 hne
        · exact ⟨h1, hne⟩
    · rw [if_neg hak]
      constructor
      · intro h
        rcases List.mem_cons.mp h with h1 | h1
        · subst h1
          exact ⟨List.mem_cons_self _ _, hak⟩
        · obtain ⟨h2, hne⟩ := ih.mp h1
          exact ⟨List.mem_cons_of_mem _ h2, hne⟩
      · rintro ⟨h, hne⟩
        rcases List.mem_cons.mp h with h1 | h1
        · subst h1
          exact List.mem_cons_self _ _
        · exact List.mem_cons_of_mem _ (ih.mpr ⟨h1, hne⟩)

/-! ### `src/tx/dedupe.rs` — duplicate-buy guard

The two `Lazy<Mutex<_>>` globals `PENDING_BUYS` and `CONFIRMED_BUYS` become
the fields of `DedupState`; the key string `"wallet_pubkey:mint_pubkey"` is
modelled as the pair of pubkeys (the `Display` form of a pubkey contains no
colon, so the formatted string determines the pair). -/

/-- The key `"wallet_pubkey:mint_pubkey"`, with pubkeys abstracted to `ℕ`. -/
abbrev DKey : Type := ℕ × ℕ

/-- The dedupe globals: optimistic pending buys with their submission
timestamps (ms), and Geyser-confirmed buys. -/
structure DedupState where
  pending : List (DKey × ℕ)
  confirmed : List DKey
deriving DecidableEq

namespace Dedupe

/-- `PENDING_TIMEOUT_MS`: timeout for pending transactions (1 second). -/
def PENDING_TIMEOUT_MS : ℕ := 1000

/-- `should_allow_buy`: allow unless a pending entry exists whose age
(`now.saturating_sub(timestamp)`, here `ℕ` subtraction) is within the
timeout. Confirmed buys are deliberately not consulted. -/
def should_allow_buy (s : DedupState) (now : ℕ) (k : DKey) : Bool :=
  match lookupA s.pending k with
  | some timestamp =>
      if now - timestamp > PENDING_TIMEOUT_MS then true else false
  | none => true

/-- `mark_pending_buy`: record the key as pending at the current time. -/
def mark_pending_buy (s : DedupState) (now : ℕ) (k : DKey) : DedupState :=
  { s with pending := insertA s.pending k now }

/-- `confirm_buy`: remove from pending, add to confirmed. -/
def confirm_buy (s : DedupState) (k : DKey) : DedupState :=
  { pending := removeA s.pending k, confirmed := insertS s.confirmed k }

/-- `rollback_pending_buy`: remove from pending only. -/
def rollback_pending_buy (s : DedupState) (k : DKey) : DedupState :=
  { s with pending := removeA s.pending k }

/-- `clear`: after a 100% sell, remove the key from both collections. -/
def clear (s : DedupState) (k : DKey) : DedupState :=
  { pending := removeA s.pending k, confirmed := removeS s.confirmed k }

/-- `cleanup_old_pending`: retain only pending entries with age within the
timeout. -/
def cleanup_old_pending (s : DedupState) (now : ℕ) : DedupState :=
  { s with
    pending := s.pending.filter (fun p => decide (now - p.2 ≤ PENDING_TIMEOUT_MS)) }

end Dedupe

/-- One call into the dedupe module (`should_allow_buy` mutates nothing, so
it is the identity on the state). -/
inductive DedupOp where
  | allow (now : ℕ) (k : DKey)
  | markPending (now : ℕ) (k : DKey)
  | confirm (k : DKey)
  | rollback (k : DKey)
  | clearKey (k : DKey)
  | cleanup (now : ℕ)

/-- State transition of a single dedupe call. -/
def applyDedupOp (s : DedupState) : DedupOp → DedupState
  | .allow _ _ => s
  | .markPending now k => Dedupe.mark_pending_buy s now k
  | .confirm k => Dedupe.confirm_buy s k
  | .rollback k => Dedupe.rollback_pending_buy s k
  | .clearKey k => Dedupe.clear s k
  | .cleanup now => Dedupe.cleanup_old_pending s now

/-- The initial dedupe state: both globals empty. -/
def emptyDedup : DedupState := ⟨[], []⟩

/-- Run a sequence of dedupe calls from the empty state. -/
def runDedup (ops : List DedupOp) : DedupState :=
  ops.foldl applyDedupOp emptyDedup

/-- Guard under which the pending/confirmed disjointness is actually
preserved: `mark_pending_buy` is only invoked on keys not currently
confirmed. All other calls are unconditional. -/
def dedupGuard (s : DedupState) : DedupOp → Prop
  | .markPending _ k => k ∉ s.confirmed
  | _ => True

/-- States reachable from empty by guarded call sequences. -/
inductive DedupReachableG : DedupState → Prop where
  | empty : DedupReachableG emptyDedup
  | step (s : DedupState) (op : DedupOp) :
      DedupReachableG s → dedupGuard s op → DedupReachableG (applyDedupOp s op)

/-! ### `src/utils/token_tracker.rs` — exact token amounts from our buys

The global `TOKEN_AMOUNTS : RwLock<HashMap<(Pubkey, Pubkey), u64>>` becomes an
explicit association list keyed by the `(wallet, mint)` pair. -/

/-- The `TOKEN_AMOUNTS` global: `(wallet, mint) → token_amount`. -/
abbrev TokenAmounts : Type := List ((ℕ × ℕ) × ℕ)

namespace TokenTracker

/-- `store_token_amount`: record the exact amount received from a buy. -/
def store_token_amount (st : TokenAmounts) (wallet mint amount : ℕ) :
    TokenAmounts :=
  insertA st (wallet, mint) amount

/-- `get_token_amount`: the stored amount for a wallet+mint pair, if any. -/
def get_token_amount (st : TokenAmounts) (wallet mint : ℕ) : Option ℕ :=
  lookupA st (wallet, mint)

/-- `clear_token_amount`: drop the entry after selling all tokens. -/
def clear_token_amount (st : TokenAmounts) (wallet mint : ℕ) : TokenAmounts :=
  removeA st (wallet, mint)

/-- `update_token_amount`: overwrite the amount after a partial sell. -/
def update_token_amount (st : TokenAmounts) (wallet mint new_amount : ℕ) :
    TokenAmounts :=
  insertA st (wallet, mint) new_amount

/-- `calculate_sell_amount`: `(percentage * amount as f64).round() as u64`
on the stored amount (`None` when nothing is stored). -/
def calculate_sell_amount (st : TokenAmounts) (wallet mint : ℕ)
    (percentage : ℚ) : Option ℕ :=
  match get_token_amount st wallet mint with
  | none => none
  | some amount => some (asU64 (rustRound (percentage * (amount : ℚ))))

end TokenTracker

/-! ### `src/positions/mod.rs` — position registry

`persist()` writes the whole map to `positions.json`; the model counts those
writes in `writes` (file contents are determined by `positions`).  In `ℚ`,
division by zero yields `0` where Rust `f64` division yields an infinity;
no claim below touches a state where a divisor is zero. -/

/-- A single open position (`Position`). -/
structure Position where
  mint : ℕ
  /-- base-unit tokens (`u128`) -/
  balance : ℕ
  /-- total cost basis (`u64`) -/
  cost_lamports : ℕ
  last_price : Option ℚ
  updated_at : ℕ
deriving DecidableEq

/-- `Position::avg_cost`. -/
def Position.avg_cost (p : Position) : ℚ :=
  if p.balance = 0 then 0 else (p.cost_lamports : ℚ) / (p.balance : ℚ)

/-- `Position::unrealised_pnl_pct`. -/
def Position.unrealised_pnl_pct (p : Position) : Option ℚ :=
  p.last_price.map (fun pr => (pr / p.avg_cost - 1) * 100)

/-- `PositionManager`: the in-memory registry plus a count of `persist()`
calls (each one rewrites the storage file). -/
structure PositionManager where
  positions : List (ℕ × Position)
  writes : ℕ
deriving DecidableEq

namespace PositionManager

/-- `PositionManager::balance`. -/
def balance (pm : PositionManager) (mint : ℕ) : ℕ :=
  ((lookupA pm.positions mint).map Position.balance).getD 0

/-- `PositionManager::unrealised_pct`. -/
def unrealised_pct (pm : PositionManager) (mint : ℕ) : Option ℚ :=
  (lookupA pm.positions mint).bind Position.unrealised_pnl_pct

/-- `PositionManager::record_buy`: `entry(mint).or_insert(zero position)`,
then add the quantity and cost, stamp the time, and persist. -/
def record_buy (pm : PositionManager) (now mint qty_base_units cost_lamports : ℕ) :
    PositionManager :=
  let entry := (lookupA pm.positions mint).getD
    { mint := mint, balance := 0, cost_lamports := 0, last_price := none,
      updated_at := now }
  let entry := { entry with
    balance := entry.balance + qty_base_units,
    cost_lamports := entry.cost_lamports + cost_lamports,
    updated_at := now }
  { positions := insertA pm.positions mint entry, writes := pm.writes + 1 }

/-- `PositionManager::record_sell`: absent mint is a no-op (`Ok(())`, no
persist); `qty ≥ balance` removes the position; otherwise both balance and
cost basis shrink, the cost by `(cost_lamports as f64 * pct).round() as u64`
with `pct = qty as f64 / balance as f64`. -/
def record_sell (pm : PositionManager)
    (now mint qty_base_units _received_lamports : ℕ) : PositionManager :=
  match lookupA pm.positions mint with
  | none => pm
  | some pos =>
    if pos.balance ≤ qty_base_units then
      { positions := removeA pm.positions mint, writes := pm.writes + 1 }
    else
      let pct : ℚ := (qty_base_units : ℚ) / (pos.balance : ℚ)
      let reduce_cost : ℕ := asU64 (rustRound ((pos.cost_lamports : ℚ) * pct))
      { positions := insertA pm.positions mint
          { pos with
            balance := pos.balance - qty_base_units,
            cost_lamports := pos.cost_lamports - reduce_cost,
            updated_at := now },
        writes := pm.writes + 1 }

/-- `PositionManager::update_price`: absent mint is a no-op; otherwise set
`last_price`, stamp the time, persist. -/
def update_price (pm : PositionManager) (now mint : ℕ) (price_lamports : ℚ) :
    PositionManager :=
  match lookupA pm.positions mint with
  | none => pm
  | some pos =>
      { positions := insertA pm.positions mint
          { pos with last_price := some price_lamports, updated_at := now },
        writes := pm.writes + 1 }

end PositionManager

/-- One trade-recording call on the registry. -/
inductive PosOp where
  | buy (now mint qty cost : ℕ)
  | sell (now mint qty received : ℕ)

/-- State transition of a single registry call. -/
def applyPosOp (pm : PositionManager) : PosOp → PositionManager
  | .buy now mint qty cost => pm.record_buy now mint qty cost
  | .sell now mint qty received => pm.record_sell now mint qty received

/-- A fresh registry (no storage file yet). -/
def emptyPositions : PositionManager := ⟨[], 0⟩

/-- Run a sequence of registry calls from the empty registry. -/
def runPos (ops : List PosOp) : PositionManager :=
  ops.foldl applyPosOp emptyPositions

/-! ### `src/strategy/mod.rs` — strategy layer types -/

/-- Trade side. -/
inductive Side where
  | Buy
  | Sell
deriving DecidableEq

/-- The DEX a fill was observed on / a plan targets. -/
inductive DexKind where
  | Pumpfun
  | PumpSwap
  | Moonshot
  | Raydium
  | Meteora
  | RaydiumLaunchpad
deriving DecidableEq

/-- Plan produced by a strategy (`TradePlan`); `sell_pct` is documented in
the source as "SELL only (0.0 – 1.0)". -/
structure TradePlan where
  dex : DexKind
  side : Side
  mint : ℕ
  buy_lamports : ℕ
  sell_pct : Option ℚ
  known_token_amount : Option ℕ
  calculated_token_amount : Option ℕ
deriving DecidableEq

namespace TradePlan

/-- `TradePlan::buy_pumpfun`. -/
def buy_pumpfun (mint lamports : ℕ) : TradePlan :=
  { dex := .Pumpfun, side := .Buy, mint := mint, buy_lamports := lamports,
    sell_pct := none, known_token_amount := none, calculated_token_amount := none }

/-- `TradePlan::buy_pumpswap`. -/
def buy_pumpswap (mint lamports : ℕ) : TradePlan :=
  { buy_pumpfun mint lamports with dex := .PumpSwap }

/-- `TradePlan::buy_moonshot`. -/
def buy_moonshot (mint lamports : ℕ) : TradePlan :=
  { buy_pumpfun mint lamports with dex := .Moonshot }

/-- `TradePlan::buy_raydium`. -/
def buy_raydium (mint lamports : ℕ) : TradePlan :=
  { buy_pumpfun mint lamports with dex := .Raydium }

/-- `TradePlan::buy_meteora`. -/
def buy_meteora (mint lamports : ℕ) : TradePlan :=
  { buy_pumpfun mint lamports with dex := .Meteora }

/-- `TradePlan::buy_raydium_launchpad`. -/
def buy_raydium_launchpad (mint lamports : ℕ) : TradePlan :=
  { buy_pumpfun mint lamports with dex := .RaydiumLaunchpad }

/-- `TradePlan::sell_pumpfun_percent`. -/
def sell_pumpfun_percent (mint : ℕ) (pct : ℚ) : TradePlan :=
  { dex := .Pumpfun, side := .Sell, mint := mint, buy_lamports := 0,
    sell_pct := some pct, known_token_amount := none,
    calculated_token_amount := none }

/-- `TradePlan::sell_pumpswap_percent`. -/
def sell_pumpswap_percent (mint : ℕ) (pct : ℚ) : TradePlan :=
  { sell_pumpfun_percent mint pct with dex := .PumpSwap }

/-- `TradePlan::sell_moonshot_percent`. -/
def sell_moonshot_percent (mint : ℕ) (pct : ℚ) : TradePlan :=
  { sell_pumpfun_percent mint pct with dex := .Moonshot }

/-- `TradePlan::sell_raydium_percent`. -/
def sell_raydium_percent (mint : ℕ) (pct : ℚ) : TradePlan :=
  { sell_pumpfun_percent mint pct with dex := .Raydium }

/-- `TradePlan::sell_meteora_percent`. -/
def sell_meteora_percent (mint : ℕ) (pct : ℚ) : TradePlan :=
  { sell_pumpfun_percent mint pct with dex := .Meteora }

/-- `TradePlan::sell_raydium_launchpad_percent`. -/
def sell_raydium_launchpad_percent (mint : ℕ) (pct : ℚ) : TradePlan :=
  { sell_pumpfun_percent mint pct with dex := .RaydiumLaunchpad }

end TradePlan

/-- What the listeners observe on-chain (`ObservedFill`). -/
structure ObservedFill where
  mint : ℕ
  side : Side
  cost_lamports : ℕ
  pct_of_balance : ℚ
  dex : DexKind
  wallet_label : String
deriving DecidableEq

/-! ### `src/config/settings.rs` — the fields the strategies read -/

/-- One tracked wallet (`WalletConfig`); only the fields the strategies in
the claims read are modelled. -/
structure WalletConfig where
  label : String
  sol_gate : ℚ
  buy_amount_sol : ℚ
deriving DecidableEq

/-- Bot settings (`Settings`); only the fields the strategies in the claims
read are modelled. -/
structure Settings where
  tracked_wallets : List WalletConfig
  take_profit_percent : ℚ
  take_profit_sell_fraction : ℚ
deriving DecidableEq

/-- `LAMPORTS_PER_SOL`. -/
def LAMPORTS_PER_SOL : ℕ := 1000000000

/-- `Settings::sol_to_lamports`: `Ok((sol * LAMPORTS_PER_SOL as f64).round()
as u64)` — infallible, so the `Result` wrapper (and the callers'
`unwrap_or`) is dropped from the model. -/
def Settings.sol_to_lamports (_s : Settings) (sol : ℚ) : ℕ :=
  asU64 (rustRound (sol * (LAMPORTS_PER_SOL : ℚ)))

/-! ### `src/strategy/follow_buy.rs` -/

namespace FollowBuy

/-- `FollowBuy::on_fill`: follow only Buy fills from a configured wallet
(matched by label); drop fills with `cost_lamports < gate_lamports`; size
the copy by the wallet's `buy_amount_sol`. -/
def on_fill (f : ObservedFill) (settings : Settings) : List TradePlan :=
  if f.side ≠ Side.Buy then [] else
  match settings.tracked_wallets.find? (fun w => w.label == f.wallet_label) with
  | none => []
  | some wallet_config =>
    let gate_lamports := settings.sol_to_lamports wallet_config.sol_gate
    if f.cost_lamports < gate_lamports then [] else
    let lamports := settings.sol_to_lamports wallet_config.buy_amount_sol
    match f.dex with
    | .Pumpfun => [TradePlan.buy_pumpfun f.mint lamports]
    | .PumpSwap => [TradePlan.buy_pumpswap f.mint lamports]
    | .Moonshot => [TradePlan.buy_moonshot f.mint lamports]
    | .Raydium => [TradePlan.buy_raydium f.mint lamports]
    | .Meteora => [TradePlan.buy_meteora f.mint lamports]
    | .RaydiumLaunchpad => [TradePlan.buy_raydium_launchpad f.mint lamports]

end FollowBuy

/-! ### `src/strategy/take_profit.rs`

`STRATEGY_ENGINE.get()` returning `None` yields no plans; the model takes
the engine's `PositionManager` as an explicit argument (engine present). -/

namespace TakeProfit

/-- `TakeProfit::on_fill`: only on Sell fills, only with a held position,
only when the unrealised PnL reaches `take_profit_percent`; the emitted
sell is sized by `take_profit_sell_fraction` on five DEXes but by
`take_profit_percent` on `RaydiumLaunchpad` (as the source does). -/
def on_fill (f : ObservedFill) (settings : Settings) (pm : PositionManager) :
    List TradePlan :=
  if f.side ≠ Side.Sell then [] else
  let current_balance := pm.balance f.mint
  if current_balance = 0 then [] else
  match pm.unrealised_pct f.mint with
  | none => []
  | some pnl =>
    if settings.take_profit_percent ≤ pnl then
      [match f.dex with
       | .Pumpfun =>
           TradePlan.sell_pumpfun_percent f.mint settings.take_profit_sell_fraction
       | .PumpSwap =>
           TradePlan.sell_pumpswap_percent f.mint settings.take_profit_sell_fraction
       | .Moonshot =>
           TradePlan.sell_moonshot_percent f.mint settings.take_profit_sell_fraction
       | .Raydium =>
           TradePlan.sell_raydium_percent f.mint settings.take_profit_sell_fraction
       | .Meteora =>
           TradePlan.sell_meteora_percent f.mint settings.take_profit_sell_fraction
       | .RaydiumLaunchpad =>
           TradePlan.sell_raydium_launchpad_percent f.mint settings.take_profit_percent]
    else []

end TakeProfit

/-! ### `src/dex/raydium.rs` — CPMM swap output -/

/-- `2 ^ 64`, the wrap point of `u64`. -/
def U64_SIZE : ℕ := 2 ^ 64

/-- `u64::checked_mul`. -/
def checked_mul_u64 (a b : ℕ) : Option ℕ :=
  if a * b < U64_SIZE then some (a * b) else none

/-- `u64::checked_add`. -/
def checked_add_u64 (a b : ℕ) : Option ℕ :=
  if a + b < U64_SIZE then some (a + b) else none

namespace RaydiumDex

/-- `RaydiumDex::calculate_swap_amount`: constant-product output with a
0.25% fee (2500 / 1000000), every intermediate step checked. -/
def calculate_swap_amount (reserve_in reserve_out amount_in : ℕ)
    (_is_buy : Bool) : Except String ℕ :=
  if reserve_in = 0 ∨ reserve_out = 0 then
    .error "Invalid pool reserves"
  else
    let fee_rate : ℕ := 2500
    let fee_denominator : ℕ := 1000000
    match checked_mul_u64 amount_in (fee_denominator - fee_rate) with
    | none => .error "Overflow in fee calculation"
    | some amount_in_with_fee =>
      match checked_mul_u64 amount_in_with_fee reserve_out with
      | none => .error "Overflow in numerator calculation"
      | some numerator =>
        match checked_mul_u64 reserve_in fee_denominator with
        | none => .error "Overflow in denominator calculation"
        | some d =>
          match checked_add_u64 d amount_in_with_fee with
          | none => .error "Overflow in denominator addition"
          | some denominator =>
            if denominator = 0 then
              .error "Division by zero in swap calculation"
            else
              .ok (numerator / denominator)

end RaydiumDex

/-! ## Claim theorems -/

/-- C7: `should_allow_buy(wallet, mint)` returns `true` iff the pending map
holds no entry for the key whose age `now − timestamp` (saturating) is at
most 1000 ms; an absent key allows the buy, and a pending entry whose age
exceeds 1000 ms does not block it. -/
theorem C7_should_allow_buy_iff (s : DedupState) (now : ℕ) (k : DKey) :
    Dedupe.should_allow_buy s now k = true ↔
      ¬ ∃ ts, lookupA s.pending k = some ts ∧ now - ts ≤ 1000 := by
  unfold Dedupe.should_allow_buy Dedupe.PENDING_TIMEOUT_MS
  cases h : lookupA s.pending k with
  | none => simp [h]
  | some ts =>
    by_cases hc : now - ts > 1000
    · simp only [h, if_pos hc, Option.some.injEq, true_iff]
      rintro ⟨ts2, rfl, hle⟩
      omega
    · simp only [h, if_neg hc, Bool.false_eq_true, false_iff, not_not,
        Option.some.injEq]
      exact ⟨ts, rfl, by omega⟩

/-- C9: with positive reserves and no intermediate `u64` overflow,
`calculate_swap_amount` returns the constant-product output with the 0.25%
fee under integer division; a zero reserve or an intermediate overflow
yields `Err` (no panic). -/
theorem C9_calculate_swap_amount (reserve_in reserve_out amount_in : ℕ)
    (b : Bool) :
    (0 < reserve_in → 0 < reserve_out →
       amount_in * (1000000 - 2500) < U64_SIZE →
       amount_in * (1000000 - 2500) * reserve_out < U64_SIZE →
       reserve_in * 1000000 < U64_SIZE →
       reserve_in * 1000000 + amount_in * (1000000 - 2500) < U64_SIZE →
       RaydiumDex.calculate_swap_amount reserve_in reserve_out amount_in b =
         .ok ((amount_in * (1000000 - 2500) * reserve_out) /
              (reserve_in * 1000000 + amount_in * (1000000 - 2500)))) ∧
    ((reserve_in = 0 ∨ reserve_out = 0) →
       RaydiumDex.calculate_swap_amount reserve_in reserve_out amount_in b =
         .error "Invalid pool reserves") ∧
    (0 < reserve_in → 0 < reserve_out →
       (U64_SIZE ≤ amount_in * (1000000 - 2500) ∨
        U64_SIZE ≤ amount_in * (1000000 - 2500) * reserve_out ∨
        U64_SIZE ≤ reserve_in * 1000000 ∨
        U64_SIZE ≤ reserve_in * 1000000 + amount_in * (1000000 - 2500)) →
       ∃ msg, RaydiumDex.calculate_swap_amount reserve_in reserve_out amount_in b =
         .error msg) := by
  have hnz : ∀ h1 : 0 < reserve_in, ∀ h2 : 0 < reserve_out,
      ¬(reserve_in = 0 ∨ reserve_out = 0) := by omega
  refine ⟨?_, ?_, ?_⟩
  · intro h1 h2 h3 h4 h5 h6
    simp only [RaydiumDex.calculate_swap_amount, checked_mul_u64,
      checked_add_u64, if_neg (hnz h1 h2), if_pos h3, if_pos h4, if_pos h5,
      if_pos h6]
    have hd : ¬(reserve_in * 1000000 + amount_in * (1000000 - 2500) = 0) := by
      omega
    simp only [if_neg hd]
  · intro h
    simp only [RaydiumDex.calculate_swap_amount, if_pos h]
  · intro h1 h2 hover
    simp only [RaydiumDex.calculate_swap_amount, checked_mul_u64,
      checked_add_u64, if_neg (hnz h1 h2)]
    by_cases o1 : amount_in * (1000000 - 2500) < U64_SIZE
    · simp only [if_pos o1]
      by_cases o2 : amount_in * (1000000 - 2500) * reserve_out < U64_SIZE
      · simp only [if_pos o2]
        by_cases o3 : reserve_in * 1000000 < U64_SIZE
        · simp only [if_pos o3]
          by_cases o4 : reserve_in * 1000000 + amount_in * (1000000 - 2500) <
              U64_SIZE
          · omega
          · simp only [if_neg o4]
            exact ⟨_, rfl⟩
        · simp only [if_neg o3]
          exact ⟨_, rfl⟩
      · simp only [if_neg o2]
        exact ⟨_, rfl⟩
    · simp only [if_neg o1]
      exact ⟨_, rfl⟩

/-- C9 witness: concrete evaluations through the theorem — a successful
swap and a zero-reserve rejection. -/
theorem C9_witness :
    RaydiumDex.calculate_swap_amount 1000 1000 1000 true = .ok 499 ∧
    RaydiumDex.calculate_swap_amount 0 1000 1000 true =
      .error "Invalid pool reserves" := by
  constructor
  · have h := (C9_calculate_swap_amount 1000 1000 1000 true).1
      (by norm_num) (by norm_num) (by norm_num [U64_SIZE])
      (by norm_num [U64_SIZE]) (by norm_num [U64_SIZE]) (by norm_num [U64_SIZE])
    rw [h]
  · exact (C9_calculate_swap_amount 0 1000 1000 true).2.1 (Or.inl rfl)

/-- C10: `record_sell` and `update_price` on a mint with no position leave
the registry entirely unchanged — no entry created or modified and no
persistence write. -/
theorem C10_absent_mint_noop (pm : PositionManager) (now mint q r : ℕ)
    (price : ℚ) (h : lookupA pm.positions mint = none) :
    pm.record_sell now mint q r = pm ∧ pm.update_price now mint price = pm := by
  unfold PositionManager.record_sell PositionManager.update_price
  rw [h]
  exact ⟨rfl, rfl⟩

/-- C10 witness: concrete no-op on a registry holding an unrelated mint. -/
theorem C10_witness :
    (PositionManager.record_sell ⟨[(3, ⟨3, 5, 7, none, 0⟩)], 2⟩ 9 4 1 1 =
      ⟨[(3, ⟨3, 5, 7, none, 0⟩)], 2⟩) ∧
    (PositionManager.update_price ⟨[(3, ⟨3, 5, 7, none, 0⟩)], 2⟩ 9 4 (1/2) =
      ⟨[(3, ⟨3, 5, 7, none, 0⟩)], 2⟩) :=
  C10_absent_mint_noop ⟨[(3, ⟨3, 5, 7, none, 0⟩)], 2⟩ 9 4 1 1 (1/2) rfl

/-- C8: for a mint not in the registry, `record_buy(m, q, c)` followed by
`record_sell(m, q, _)` leaves no position for `m`. -/
theorem C8_round_trip_removes (pm : PositionManager)
    (now now2 mint q c r : ℕ) (h : lookupA pm.positions mint = none) :
    lookupA ((pm.record_buy now mint q c).record_sell now2 mint q r).positions
      mint = none := by
  unfold PositionManager.record_buy
  rw [h]
  unfold PositionManager.record_sell
  rw [lookupA_insertA]
  simp only [if_pos rfl, Option.getD_none, Nat.zero_add, le_refl, if_pos]
  rw [lookupA_removeA]
  simp

/-- C8 witness: a concrete buy/sell round trip from the empty registry. -/
theorem C8_witness :
    lookupA ((emptyPositions.record_buy 1 7 100 5).record_sell 2 7 100 9).positions
      7 = none :=
  C8_round_trip_removes emptyPositions 1 2 7 100 5 9 rfl

/-- C3 counterexample: with 1 token stored and `percentage = 1/2`, the code
returns `Some(1)` (it rounds: `(0.5).round() = 1`), not `Some(floor(a·p)) =
Some(0)` as the claim states. -/
theorem C3_counterexample :
    TokenTracker.calculate_sell_amount [((0, 0), 1)] 0 0 (1/2) ≠
      some (Int.toNat ⌊((1 : ℕ) : ℚ) * (1/2)⌋) := by
  have h1 : TokenTracker.calculate_sell_amount [((0, 0), 1)] 0 0 (1/2) =
      some 1 := by
    show some (asU64 (rustRound ((1/2 : ℚ) * ((1 : ℕ) : ℚ)))) = some 1
    rw [rustRound, if_pos (by norm_num)]
    norm_num [asU64]
  have h2 : (⌊((1 : ℕ) : ℚ) * (1/2)⌋ : ℤ) = 0 := by norm_num
  rw [h1, h2]
  decide

/-- C3 (amended): `calculate_sell_amount(wallet, mint, p)` returns
`Some(round(p·a))` — nearest integer, ties away from zero, then cast
saturating to `u64` — for a stored amount `a`, and `None` when no amount is
stored for the pair. -/
theorem C3_calculate_sell_amount (st : TokenAmounts) (w m : ℕ) (p : ℚ) :
    (∀ a, TokenTracker.get_token_amount st w m = some a →
       TokenTracker.calculate_sell_amount st w m p =
         some (asU64 (rustRound (p * (a : ℚ))))) ∧
    (TokenTracker.get_token_amount st w m = none →
       TokenTracker.calculate_sell_amount st w m p = none) := by
  constructor
  · intro a ha
    unfold TokenTracker.calculate_sell_amount
    rw [ha]
  · intro ha
    unfold TokenTracker.calculate_sell_amount
    rw [ha]

/-- C3 witness: 50% of a stored 4-token amount sells 2 tokens. -/
theorem C3_witness :
    TokenTracker.calculate_sell_amount [((0, 0), 4)] 0 0 (1/2) = some 2 := by
  have h := (C3_calculate_sell_amount [((0, 0), 4)] 0 0 (1/2)).1 4 rfl
  rw [h, rustRound, if_pos (by norm_num)]
  norm_num [asU64]
  decide

/-- Helper: a Buy fill from a configured tracked wallet whose cost reaches
the wallet's gate (`gate ≤ cost`) produces exactly one buy plan, on the
fill's DEX, sized by the wallet's `buy_amount_sol`. -/
theorem followBuy_gate_reached_emits (f : ObservedFill) (s : Settings)
    (cfg : WalletConfig) (hside : f.side = Side.Buy)
    (hfind : s.tracked_wallets.find? (fun w => w.label == f.wallet_label) =
      some cfg)
    (hgate : s.sol_to_lamports cfg.sol_gate ≤ f.cost_lamports) :
    FollowBuy.on_fill f s =
      [{ dex := f.dex, side := Side.Buy, mint := f.mint,
         buy_lamports := s.sol_to_lamports cfg.buy_amount_sol,
         sell_pct := none, known_token_amount := none,
         calculated_token_amount := none }] := by
  unfold FollowBuy.on_fill
  rw [hside, hfind]
  simp only [if_neg (show ¬(Side.Buy ≠ Side.Buy) from fun hh => hh rfl),
    if_neg (Nat.not_lt.mpr hgate)]
  cases f.dex <;> rfl

/-- Helper: the concrete gate used in the C2 instances evaluates to 5
lamports, and the concrete buy amount to 3 lamports. -/
theorem followBuy_concrete_gate_values (s : Settings) :
    s.sol_to_lamports (5/1000000000) = 5 ∧
    s.sol_to_lamports (3/1000000000) = 3 := by
  constructor <;>
  · simp only [Settings.sol_to_lamports, LAMPORTS_PER_SOL, rustRound]
    norm_num [asU64]
    decide

/-- C2 counterexample: a Buy fill whose `cost_lamports` (5) exactly equals
the wallet's gate `sol_to_lamports(sol_gate)` IS followed — the code drops
only `cost_lamports < gate_lamports` — refuting the claim that the boundary
fill is not followed. -/
theorem C2_counterexample :
    (⟨9, Side.Buy, 5, 0, DexKind.Pumpfun, "w"⟩ : ObservedFill).cost_lamports =
      (⟨[⟨"w", 5/1000000000, 3/1000000000⟩], 120, 1⟩ : Settings).sol_to_lamports
        (⟨"w", 5/1000000000, 3/1000000000⟩ : WalletConfig).sol_gate ∧
    FollowBuy.on_fill ⟨9, Side.Buy, 5, 0, DexKind.Pumpfun, "w"⟩
      ⟨[⟨"w", 5/1000000000, 3/1000000000⟩], 120, 1⟩ ≠ [] := by
  have hg := (followBuy_concrete_gate_values
    ⟨[⟨"w", 5/1000000000, 3/1000000000⟩], 120, 1⟩).1
  refine ⟨hg.symm, ?_⟩
  rw [followBuy_gate_reached_emits ⟨9, Side.Buy, 5, 0, DexKind.Pumpfun, "w"⟩
    ⟨[⟨"w", 5/1000000000, 3/1000000000⟩], 120, 1⟩
    ⟨"w", 5/1000000000, 3/1000000000⟩ rfl (by simp [List.find?]) (le_of_eq hg)]
  simp

/-- C2 (amended): a Buy fill from a configured tracked wallet whose
`cost_lamports` exactly equals the wallet's gate `sol_to_lamports(sol_gate)`
IS followed: exactly one buy plan is emitted, on the fill's DEX, sized by
the wallet's `buy_amount_sol`. Only `cost_lamports < gate` is dropped. -/
theorem C2_gate_boundary_followed (f : ObservedFill) (s : Settings)
    (cfg : WalletConfig) (hside : f.side = Side.Buy)
    (hfind : s.tracked_wallets.find? (fun w => w.label == f.wallet_label) =
      some cfg)
    (hgate : f.cost_lamports = s.sol_to_lamports cfg.sol_gate) :
    FollowBuy.on_fill f s =
      [{ dex := f.dex, side := Side.Buy, mint := f.mint,
         buy_lamports := s.sol_to_lamports cfg.buy_amount_sol,
         sell_pct := none, known_token_amount := none,
         calculated_token_amount := none }] :=
  followBuy_gate_reached_emits f s cfg hside hfind (le_of_eq hgate.symm)

/-- C2 witness: the concrete boundary fill yields exactly the 3-lamport
Pumpfun buy plan. -/
theorem C2_witness :
    FollowBuy.on_fill ⟨9, Side.Buy, 5, 0, DexKind.Pumpfun, "w"⟩
      ⟨[⟨"w", 5/1000000000, 3/1000000000⟩], 120, 1⟩ =
      [{ dex := DexKind.Pumpfun, side := Side.Buy, mint := 9,
         buy_lamports := 3, sell_pct := none, known_token_amount := none,
         calculated_token_amount := none }] := by
  have hv := followBuy_concrete_gate_values
    (⟨[⟨"w", 5/1000000000, 3/1000000000⟩], 120, 1⟩ : Settings)
  have h := C2_gate_boundary_followed ⟨9, Side.Buy, 5, 0, DexKind.Pumpfun, "w"⟩
    ⟨[⟨"w", 5/1000000000, 3/1000000000⟩], 120, 1⟩
    ⟨"w", 5/1000000000, 3/1000000000⟩ rfl (by simp [List.find?]) hv.1.symm
  rw [h, show (⟨"w", 5/1000000000, 3/1000000000⟩ : WalletConfig).buy_amount_sol =
    (3/1000000000 : ℚ) from rfl, hv.2]

/-- C1: at a Sell fill on RaydiumLaunchpad with a held position (balance 1,
cost 1 lamport, last price 10 ⇒ unrealised PnL 900% ≥ threshold 120%), the
strategy emits exactly one sell plan — but its `sell_pct` is the *threshold*
`take_profit_percent` (120), not the configured
`take_profit_sell_fraction` (1/2): the RaydiumLaunchpad arm passes the wrong
settings field into a parameter documented as a 0.0–1.0 fraction. -/
theorem C1_raydium_launchpad_wrong_field :
    (TakeProfit.on_fill ⟨1, Side.Sell, 0, 0, DexKind.RaydiumLaunchpad, "x"⟩
        ⟨[], 120, 1/2⟩ ⟨[(1, ⟨1, 1, 1, some 10, 0⟩)], 0⟩).map
      TradePlan.sell_pct = [some 120] ∧
    (⟨[], 120, 1/2⟩ : Settings).take_profit_sell_fraction = 1/2 ∧
    (120 : ℚ) ≠ 1/2 := by
  have hp : PositionManager.unrealised_pct ⟨[(1, ⟨1, 1, 1, some 10, 0⟩)], 0⟩ 1 =
      some 900 := by
    unfold PositionManager.unrealised_pct Position.unrealised_pnl_pct
      Position.avg_cost
    norm_num [lookupA]
  refine ⟨?_, rfl, by norm_num⟩
  unfold TakeProfit.on_fill
  simp only [hp]
  norm_num [PositionManager.balance, lookupA,
    TradePlan.sell_raydium_launchpad_percent, TradePlan.sell_pumpfun_percent]

/-- C4 counterexample: from the empty state, `confirm_buy(W,M)` followed by
`mark_pending_buy(W,M)` reaches a state where the key is simultaneously in
the pending map and in the confirmed set — `mark_pending_buy` never consults
`CONFIRMED_BUYS`. -/
theorem C4_counterexample :
    (lookupA (runDedup [DedupOp.confirm (0, 1), DedupOp.markPending 5 (0, 1)]).pending
      (0, 1)).isSome = true ∧
    (0, 1) ∈ (runDedup [DedupOp.confirm (0, 1), DedupOp.markPending 5 (0, 1)]).confirmed := by
  decide

/-- C4 (amended): the pending map and the confirmed set are disjoint in
every state reachable from empty by call sequences in which
`mark_pending_buy` is only invoked on keys not currently confirmed; in
general a `mark_pending_buy` after a `confirm_buy` of the same key puts the
key in both. -/
theorem C4_disjoint_under_guard (s : DedupState) (h : DedupReachableG s) :
    ∀ k ts, lookupA s.pending k = some ts → k ∉ s.confirmed := by
  induction h with
  | empty =>
    intro k ts hk
    exact absurd hk (by simp [emptyDedup, lookupA])
  | step s op hs hg ih =>
    intro k ts hk hc
    cases op with
    | allow now k0 => exact ih k ts hk hc
    | markPending now k0 =>
      simp only [applyDedupOp, Dedupe.mark_pending_buy] at hk hc
      rw [lookupA_insertA] at hk
      by_cases hkk : k = k0
      · subst hkk
        exact hg hc
      · rw [if_neg hkk] at hk
        exact ih k ts hk hc
    | confirm k0 =>
      simp only [applyDedupOp, Dedupe.confirm_buy] at hk hc
      rw [lookupA_removeA] at hk
      by_cases hkk : k = k0
      · rw [if_pos hkk] at hk
        exact Option.noConfusion hk
      · rw [if_neg hkk] at hk
        rcases (mem_insertS _ _ _).mp hc with h1 | h1
        · exact hkk h1
        · exact ih k ts hk h1
    | rollback k0 =>
      simp only [applyDedupOp, Dedupe.rollback_pending_buy] at hk hc
      rw [lookupA_removeA] at hk
      by_cases hkk : k = k0
      · rw [if_pos hkk] at hk
        exact Option.noConfusion hk
      · rw [if_neg hkk] at hk
        exact ih k ts hk hc
    | clearKey k0 =>
      simp only [applyDedupOp, Dedupe.clear] at hk hc
      rw [lookupA_removeA] at hk
      by_cases hkk : k = k0
      · rw [if_pos hkk] at hk
        exact Option.noConfusion hk
      · rw [if_neg hkk] at hk
        exact ih k ts hk ((mem_removeS _ _ _).mp hc).1
    | cleanup now =>
      simp only [applyDedupOp, Dedupe.cleanup_old_pending] at hk hc
      have h1 : (lookupA (s.pending.filter
          (fun p => decide (now - p.2 ≤ Dedupe.PENDING_TIMEOUT_MS))) k).isSome := by
        rw [hk]
        rfl
      rcases (lookupA_isSome_iff_mem _ _).mp h1 with ⟨v, hv⟩
      have hv2 : (k, v) ∈ s.pending := List.mem_of_mem_filter hv
      have h2 : (lookupA s.pending k).isSome :=
        (lookupA_isSome_iff_mem _ _).mpr ⟨v, hv2⟩
      rcases Option.isSome_iff_exists.mp h2 with ⟨ts2, hts2⟩
      exact ih k ts2 hts2 hc

/-- C4 witness: after a single guarded `mark_pending_buy` from empty, the
pending key is not confirmed. -/
theorem C4_witness :
    (0, 1) ∉ (applyDedupOp emptyDedup (DedupOp.markPending 0 (0, 1))).confirmed :=
  C4_disjoint_under_guard _
    (DedupReachableG.step emptyDedup (DedupOp.markPending 0 (0, 1))
      DedupReachableG.empty (by simp [dedupGuard, emptyDedup]))
    (0, 1) 0 rfl

/-- Guard under which positive balances are preserved: `record_buy` is only
called with a positive quantity (`record_sell` needs no guard). -/
def posOpGuard : PosOp → Prop
  | .buy _ _ qty _ => 0 < qty
  | .sell _ _ _ _ => True

/-- Helper: one registry call preserves "every stored position has positive
balance" when buys have positive quantity. -/
theorem applyPosOp_preserves_positive (pm : PositionManager) (op : PosOp)
    (hpm : ∀ m pos, lookupA pm.positions m = some pos → 0 < pos.balance)
    (hop : posOpGuard op) :
    ∀ m pos, lookupA (applyPosOp pm op).positions m = some pos →
      0 < pos.balance := by
  intro m pos hm
  cases op with
  | buy now mint qty cost =>
    simp only [posOpGuard] at hop
    simp only [applyPosOp, PositionManager.record_buy] at hm
    rw [lookupA_insertA] at hm
    by_cases hmm : m = mint
    · rw [if_pos hmm] at hm
      injection hm with h2
      subst h2
      exact Nat.lt_of_lt_of_le hop (Nat.le_add_left qty _)
    · rw [if_neg hmm] at hm
      exact hpm m pos hm
  | sell now mint qty received =>
    simp only [applyPosOp, PositionManager.record_sell] at hm
    cases hpos : lookupA pm.positions mint with
    | none =>
      simp only [hpos] at hm
      exact hpm m pos hm
    | some pos0 =>
      simp only [hpos] at hm
      by_cases hbal : pos0.balance ≤ qty
      · rw [if_pos hbal] at hm
        rw [lookupA_removeA] at hm
        by_cases hmm : m = mint
        · rw [if_pos hmm] at hm
          exact Option.noConfusion hm
        · rw [if_neg hmm] at hm
          exact hpm m pos hm
      · rw [if_neg hbal] at hm
        simp only [lookupA_insertA] at hm
        by_cases hmm : m = mint
        · rw [if_pos hmm] at hm
          injection hm with h2
          subst h2
          exact Nat.sub_pos_of_lt (Nat.not_le.mp hbal)
        · rw [if_neg hmm] at hm
          exact hpm m pos hm

/-- C5 counterexample: `record_buy` with quantity 0 (explicitly allowed by
the claim) creates and stores a position with `balance = 0`, refuting the
invariant as stated. -/
theorem C5_counterexample :
    ¬ (∀ m pos, lookupA (runPos [PosOp.buy 0 7 0 5]).positions m = some pos →
        0 < pos.balance) := by
  intro h
  have h2 := h 7 ⟨7, 0, 5, none, 0⟩ (by decide)
  exact absurd h2 (by decide)

/-- C5 (amended): in every registry state reachable by any `record_buy` /
`record_sell` sequence in which every `record_buy` has positive quantity,
every stored position has `balance > 0`. -/
theorem C5_positive_balances (ops : List PosOp)
    (hops : ∀ op ∈ ops, posOpGuard op) :
    ∀ m pos, lookupA (runPos ops).positions m = some pos → 0 < pos.balance := by
  unfold runPos
  have main : ∀ (l : List PosOp) (pm : PositionManager),
      (∀ op ∈ l, posOpGuard op) →
      (∀ m pos, lookupA pm.positions m = some pos → 0 < pos.balance) →
      ∀ m pos, lookupA (l.foldl applyPosOp pm).positions m = some pos →
        0 < pos.balance := by
    intro l
    induction l with
    | nil =>
      intro pm _ hpm
      exact hpm
    | cons op t ih =>
      intro pm hl hpm
      simp only [List.foldl_cons]
      exact ih (applyPosOp pm op)
        (fun o ho => hl o (List.mem_cons_of_mem _ ho))
        (applyPosOp_preserves_positive pm op hpm (hl op (List.mem_cons_self _ _)))
  refine main ops emptyPositions hops ?_
  intro m pos hm
  exact absurd hm (by simp [emptyPositions, lookupA])

/-- C5 witness: a single positive-quantity buy leaves a positive balance. -/
theorem C5_witness : 0 < (⟨1, 5, 10, none, 0⟩ : Position).balance :=
  C5_positive_balances [PosOp.buy 0 1 5 10]
    (by
      intro op hop
      rcases List.mem_singleton.mp hop with rfl
      show (0 : ℕ) < 5
      decide)
    1 ⟨1, 5, 10, none, 0⟩ (by decide)

/-- Helper: exact effect of a partial `record_sell` (`q < balance`): the
position stays, balance drops by `q`, and the cost basis drops by
`reduce_cost = round(cost_lamports · q/balance)`. -/
theorem record_sell_partial_eq (pm : PositionManager) (now mint q r : ℕ)
    (pos : Position) (hpos : lookupA pm.positions mint = some pos)
    (hq : q < pos.balance) :
    lookupA (pm.record_sell now mint q r).positions mint =
      some { pos with
        balance := pos.balance - q,
        cost_lamports := pos.cost_lamports -
          asU64 (rustRound ((pos.cost_lamports : ℚ) *
            ((q : ℚ) / (pos.balance : ℚ)))),
        updated_at := now } := by
  unfold PositionManager.record_sell
  simp only [hpos, if_neg (Nat.not_le.mpr hq), lookupA_insertA, if_pos rfl,
    ite_true]

/-- C6 counterexample: position `{balance = 2, cost = 1}`, sell `q = 1`.
The code leaves `cost' = 1 − round(1·(1/2)) = 1 − 1 = 0`, but the claim's
primary formulation `cost' = round(cost·(1 − q/balance)) = round(1/2) = 1`
differs: the two formulations the claim calls equivalent disagree at
rounding ties. -/
theorem C6_counterexample :
    (lookupA ((⟨[(5, ⟨5, 2, 1, none, 0⟩)], 0⟩ : PositionManager).record_sell
        9 5 1 0).positions 5).map Position.cost_lamports ≠
      some (asU64 (rustRound (((1 : ℕ) : ℚ) *
        (1 - ((1 : ℕ) : ℚ) / ((2 : ℕ) : ℚ))))) := by
  have h := record_sell_partial_eq ⟨[(5, ⟨5, 2, 1, none, 0⟩)], 0⟩ 9 5 1 0
    ⟨5, 2, 1, none, 0⟩ rfl (by decide)
  rw [h]
  norm_num [rustRound, asU64]

/-- C6 (amended): for a held position `{balance, cost}` and `0 < q' <
balance`, `record_sell(m, q', _)` leaves the position present with
`balance' = balance − q'` and `cost' = cost − reduce_cost` where
`reduce_cost = round(cost · q'/balance)` (the component spec's reduce_cost
form; the claim's `round(cost·(1 − q'/balance))` form disagrees at ties). -/
theorem C6_record_sell_proportional (pm : PositionManager)
    (now mint q r : ℕ) (pos : Position)
    (hpos : lookupA pm.positions mint = some pos)
    (hq0 : 0 < q) (hq : q < pos.balance) :
    lookupA (pm.record_sell now mint q r).positions mint =
      some { pos with
        balance := pos.balance - q,
        cost_lamports := pos.cost_lamports -
          asU64 (rustRound ((pos.cost_lamports : ℚ) *
            ((q : ℚ) / (pos.balance : ℚ)))),
        updated_at := now } :=
  record_sell_partial_eq pm now mint q r pos hpos hq

/-- C6 witness: selling 1 of 2 tokens with cost basis 1 leaves
`{balance = 1, cost = 0}` (reduce_cost = round(1/2) = 1). -/
theorem C6_witness :
    lookupA ((⟨[(5, ⟨5, 2, 1, none, 0⟩)], 0⟩ : PositionManager).record_sell
      9 5 1 0).positions 5 = some ⟨5, 1, 0, none, 9⟩ := by
  have h := C6_record_sell_proportional ⟨[(5, ⟨5, 2, 1, none, 0⟩)], 0⟩ 9 5 1 0
    ⟨5, 2, 1, none, 0⟩ rfl (by decide) (by decide)
  rw [h]
  norm_num [rustRound, asU64]
